import Mathlib

/-!
# Verification of the AssignmentTracker reconciliation engine

Shallow embedding of `src/AssignmentTracker.py` (the status-reconciliation
engine: `determine_status`, `load_names_from_file`, `enforce_constraints`,
and the row-building core of `prepare_and_send_data`), together with proofs
of the specification's claims about it.

External collaborators (the `gh` CLI, `git clone`, the spreadsheet HTTP
endpoints, `os.walk`) are modelled as explicit inputs: the PR list, the
per-PR latest-commit-time oracle, and the list of file names found in the
cloned working copy are parameters of the embedded pipeline.

Conventions:
* Python strings are Lean `String`s; Python's lexicographic `<`/`>` on
  strings (by code point) is embedded as `pyLt`/`pyStrLt` below.
* Python `str.lower`/`str.strip`/`str.split`/`str.endswith` are the
  executable `lower`/`strip`/`splitStr`/`endsWithStr` defined below
  (identical to Python on the ASCII data that flows through this program).
* Python `datetime` values (always in the fixed `Asia/Kolkata` zone here)
  are embedded as the `DT` record of calendar components; `datetime`
  comparison is comparison of the lexicographic key `DT.key`, and
  `strftime("%H:%M:%S")` / `strftime("%Y-%m-%d")` are `fmtTime` / `fmtDate`.
* Python `dict`s are association lists updated by `dictSet` (update the
  value in place if the key is present, append otherwise), matching
  insertion-order semantics; Python `set`s are lists considered up to
  membership (no claim depends on set iteration order except through
  display strings, which no claim constrains).
-/

/-- Python `str.lower` on one character: ASCII letters are mapped to
their lowercase form.  (Python's `lower` also folds non-ASCII letters,
which never occur in the handles and file names this program processes.) -/
def lowerChar (c : Char) : Char :=
  if 65 ≤ c.toNat ∧ c.toNat ≤ 90 then Char.ofNat (c.toNat + 32) else c

/-- Python `str.lower` (ASCII). -/
def lower (s : String) : String := ⟨s.data.map lowerChar⟩

/-- Python's whitespace class for `str.strip()` (ASCII): space, tab,
newline, carriage return, vertical tab, form feed. -/
def isSpace (c : Char) : Bool :=
  c == ' ' || c == '\t' || c == '\n' || c == '\r' ||
  c == '\x0b' || c == '\x0c'

/-- Python `str.strip()`: remove leading and trailing whitespace. -/
def strip (s : String) : String :=
  ⟨((s.data.dropWhile isSpace).reverse.dropWhile isSpace).reverse⟩

/-- Split a character list on every occurrence of `sep`; the result is
never empty (splitting the empty list gives one empty group), exactly
like Python's `str.split(sep)` with a one-character separator. -/
def splitChar (sep : Char) : List Char → List (List Char)
  | [] => [[]]
  | c :: rest =>
    let r := splitChar sep rest
    if c == sep then [] :: r
    else
      match r with
      | [] => [[c]]
      | g :: gs => (c :: g) :: gs

/-- Python `s.split(sep)` for a one-character separator. -/
def splitStr (s : String) (sep : Char) : List String :=
  (splitChar sep s.data).map (fun cs => ⟨cs⟩)

/-- Python `str.endswith`. -/
def endsWithStr (s suffix : String) : Bool :=
  suffix.data.isSuffixOf s.data

/-- Python's lexicographic `<` on lists of characters, comparing code
points elementwise; a strict prefix is smaller. -/
def pyLt : List Char → List Char → Bool
  | [], [] => false
  | [], _ :: _ => true
  | _ :: _, [] => false
  | a :: as, b :: bs =>
    if a.toNat < b.toNat then true
    else if b.toNat < a.toNat then false
    else pyLt as bs

/-- Python's `<` on strings. -/
def pyStrLt (a b : String) : Bool := pyLt a.data b.data

/-- The ASCII digit character for `n` (`0 ≤ n ≤ 9`). -/
def digit (n : Nat) : Char := Char.ofNat (48 + n)

/-- Numeric value of an ASCII digit character. -/
def dval (c : Char) : Nat := c.toNat - 48

/-- Calendar components of a timezone-adjusted `datetime` value. -/
structure DT where
  year : Nat
  month : Nat
  day : Nat
  hour : Nat
  minute : Nat
  second : Nat
  deriving DecidableEq, Repr

/-- Order key of a `datetime`: on in-range components this is exactly the
lexicographic (year, month, day, hour, minute, second) order Python uses
to compare `datetime` values. -/
def DT.key (t : DT) : Nat :=
  ((((t.year * 100 + t.month) * 100 + t.day) * 100 + t.hour) * 100 + t.minute) * 100
    + t.second

/-- `strftime("%H:%M:%S")`: the zero-padded `HH:MM:SS` rendering of an
hour/minute/second triple (each below 100). -/
def fmtT (h m s : Nat) : String :=
  ⟨[digit (h / 10), digit (h % 10), ':',
    digit (m / 10), digit (m % 10), ':',
    digit (s / 10), digit (s % 10)]⟩

/-- `strftime("%H:%M:%S")` of a `datetime`. -/
def fmtTime (t : DT) : String := fmtT t.hour t.minute t.second

/-- `strftime("%Y-%m-%d")`: the zero-padded `YYYY-MM-DD` rendering of a
year/month/day triple (year below 10000, month and day below 100). -/
def fmtD (y m d : Nat) : String :=
  ⟨[digit (y / 1000), digit (y / 100 % 10), digit (y / 10 % 10), digit (y % 10), '-',
    digit (m / 10), digit (m % 10), '-',
    digit (d / 10), digit (d % 10)]⟩

/-- `strftime("%Y-%m-%d")` of a `datetime`. -/
def fmtDate (t : DT) : String := fmtD t.year t.month t.day

/-- `dateutil.parser.parse` restricted to the `YYYY-MM-DD` strings that
reach it inside `enforce_constraints` (every date string there is either
`"N/A"`, which is guarded against, or `strftime("%Y-%m-%d")` output), and
returning the order key `y*10000 + m*100 + d` of the parsed midnight
`datetime`.  On strings of any other shape it returns `none` (the Python
code never feeds such a string to the parser). -/
def parseDateChars : List Char → Option Nat
  | [y1, y2, y3, y4, h1, m1, m2, h2, d1, d2] =>
    if y1.isDigit && y2.isDigit && y3.isDigit && y4.isDigit &&
       h1 == '-' && h2 == '-' &&
       m1.isDigit && m2.isDigit && d1.isDigit && d2.isDigit then
      some ((((dval y1 * 10 + dval y2) * 10 + dval y3) * 10 + dval y4) * 10000 +
            (dval m1 * 10 + dval m2) * 100 + (dval d1 * 10 + dval d2))
    else none
  | _ => none

/-- See `parseDateChars`. -/
def parseDate (s : String) : Option Nat := parseDateChars s.data

/-- `determine_status` (lines 117–131): lowercase both file lists and
return `'Done'` iff every (lowercased) target file occurs among the
(lowercased) PR files — Python's `issubset` on the corresponding sets —
else `'Not Done'`.  Sets are embedded as lists compared by membership. -/
def determine_status (pr_files target_files : List String) : String :=
  if !((target_files.map lower).all
        (fun t => (pr_files.map lower).contains t)) then
    "Not Done"
  else
    "Done"

/-- The score computed at line 300: `1 if status == 'Done' else 0`. -/
def scoreOf (status : String) : Nat := if status = "Done" then 1 else 0

/-- `enforce_constraints` (lines 210–224).  `max_time = "21:00:00"`;
the launched string parses to a `max_date` unless it is `'N/A'`.  The time
is replaced by `max_time` when it is not `'N/A'` and compares greater as a
Python string; the date is replaced by the launched string when it is not
`'N/A'`, a launch date is known, and the parsed date is strictly later.
(`parseDate` returning `none` is unreachable at the call sites, where both
strings are `'N/A'` or `strftime` output; the fallback leaves the date
unchanged.) -/
def enforce_constraints (time_str date_str launched_str : String) :
    String × String :=
  let max_time := "21:00:00"
  let max_date := if launched_str ≠ "N/A" then parseDate launched_str else none
  let time_str' :=
    if time_str ≠ "N/A" then
      if pyStrLt max_time time_str then max_time else time_str
    else time_str
  let date_str' :=
    if date_str ≠ "N/A" then
      match max_date with
      | some md =>
        match parseDate date_str with
        | some dk => if md < dk then launched_str else date_str
        | none => date_str
      | none => date_str
    else date_str
  (time_str', date_str')

/-- Python `dict` assignment `d[k] = v` on an insertion-ordered association
list: if the key is present its value is updated in place, otherwise the
pair is appended. -/
def dictSet {α : Type} (d : List (String × α)) (k : String) (v : α) :
    List (String × α) :=
  if (d.map Prod.fst).contains k then
    d.map (fun p => if p.1 = k then (p.1, v) else p)
  else
    d ++ [(k, v)]

/-- One line of the roster file, as processed by `load_names_from_file`
(lines 138–142): strip the line, split on every comma, and keep it only
when that yields exactly two fields, in which case the stored pair is the
stripped-and-lowercased handle and the stripped display name. -/
def parseLine (line : String) : Option (String × String) :=
  match splitStr (strip line) ',' with
  | [github_username, real_name] =>
    some (lower (strip github_username), strip real_name)
  | _ => none

/-- `load_names_from_file` (lines 133–147) on the list of lines of the
roster source: fold the per-line processing over an initially empty dict.
(The `FileNotFoundError`/`Exception` handlers only affect which lines are
seen; the function is modelled on the lines actually read.) -/
def load_names_from_file (lines : List String) : List (String × String) :=
  lines.foldl
    (fun names_dict line =>
      match parseLine line with
      | some p => dictSet names_dict p.1 p.2
      | none => names_dict)
    []

/-- The character class `[<>:"/\\|?*\x00-\x1F]` of `sanitize_repo_name`. -/
def invalidChar (c : Char) : Bool :=
  c == '<' || c == '>' || c == ':' || c == '"' || c == '/' || c == '\\' ||
  c == '|' || c == '?' || c == '*' || decide (c.toNat ≤ 0x1F)

/-- `sanitize_repo_name` (lines 27–30): take the last `/`-separated
component of the URL (after stripping trailing slashes) and replace every
character of the invalid class with `'_'`. -/
def sanitize_repo_name (repo_url : String) : String :=
  let stripped : List Char := (repo_url.data.reverse.dropWhile (· == '/')).reverse
  let repo_name := ((splitChar '/' stripped).map (fun cs => (⟨cs⟩ : String))).getLastD ""
  ⟨repo_name.data.map (fun c => if invalidChar c then '_' else c)⟩

/-- The extension allowlist of the wildcard branch (line 255):
`file.endswith('.java') or file.endswith('.js')`. -/
def qualifies (file : String) : Bool :=
  endsWithStr file ".java" || endsWithStr file ".js"

/-- The Target-File handling of `prepare_and_send_data` (lines 241 and
253–258).  `target_files` is the comma-split of the sheet field (Python's
`split(',')`, which never yields an empty list — `''.split(',') == ['']`).
If that list were empty, or its first element strips-and-lowers to
`"n/a"` or `"na"`, the target set is every file name of the cloned working
copy (`walkFiles`, the names yielded by `os.walk`) with a qualifying
extension; otherwise it is the stripped entries of the split with
whitespace-only entries dropped. -/
def computeTargetFiles (targetFileField : String) (walkFiles : List String) :
    List String :=
  match splitStr targetFileField ',' with
  | [] => walkFiles.filter qualifies
  | f :: rest =>
    if lower (strip f) == "n/a" || lower (strip f) == "na" then
      walkFiles.filter qualifies
    else
      (f :: rest).filterMap
        (fun file => if strip file = "" then none else some (strip file))

/-- A pull request as consumed by the reconciliation loop: the fields of
the dict built by `get_pr_details` that `prepare_and_send_data` reads
(`id`, `author`, `files`; `createdAt` is fetched but never used there). -/
structure PR where
  id : Nat
  author : String
  files : List String
  deriving DecidableEq, Repr

/-- One report row (the dict appended to `output_data`, lines 306–318 and
324–336).  The `Date` field is `None` for synthesized non-participant
rows, hence an `Option`. -/
structure Row where
  repo : String
  name : String
  assignment : String
  date : Option String
  files : String
  targetFiles : String
  status : String
  score : Nat
  time : String
  launched : String
  type : String
  deriving DecidableEq, Repr

/-- One assignment-feed entry, with the fields `prepare_and_send_data`
reads.  The sheet's `Date` field is either empty (`none`) or a parseable
date-time, embedded as its `DT` value after the `Asia/Kolkata` adjustment
(line 264). -/
structure Entry where
  repoUrl : String
  assignment : String
  type : String
  targetFile : String
  date : Option DT
  deriving Repr

/-- The PR-file accumulation step (lines 276–279): on the author's first
authorized PR the files become `set(pr['files'])`, afterwards the set is
`update`d (unioned) with the new files.  Sets are lists up to membership:
`List.union` and `dedup` realize the same membership as Python's set
operations. -/
def addFiles (d : List (String × List String)) (k : String) (fs : List String) :
    List (String × List String) :=
  if (d.map Prod.fst).contains k then
    d.map (fun p => if p.1 = k then (p.1, p.2.union fs) else p)
  else
    d ++ [(k, fs.dedup)]

/-- The `author_pr_files` dict (lines 272–279): fold over the PR list,
accumulating files per lowercased author, but only for authors in the
authorized roster. -/
def author_pr_files (authorized : List String) (pr_list : List PR) :
    List (String × List String) :=
  pr_list.foldl
    (fun d pr =>
      if authorized.contains (lower pr.author) then
        addFiles d (lower pr.author) pr.files
      else d)
    []

/-- The latest-commit-time resolution for one author (lines 284–292): scan
the PR list, query the time oracle (`get_latest_commit_time`, which
returns `None` on failure) for each PR of this author, and keep the
maximum (`commit_time > latest_commit_time` is `datetime` comparison,
i.e. `DT.key` comparison). -/
def latestCommit (pr_list : List PR) (commitTime : Nat → Option DT)
    (pr_author : String) : Option DT :=
  pr_list.foldl
    (fun latest pr =>
      if lower pr.author = pr_author then
        match commitTime pr.id with
        | some t =>
          match latest with
          | none => some t
          | some l => if l.key < t.key then some t else some l
        | none => latest
      else latest)
    none

/-- The fields of an attended row that do not come from the time/date
state (everything except `Time` and `Date`, lines 306–318): repository,
display name, assignment, joined file and target-file summaries, status,
score, launch date and entry type.  `time`/`date` are placeholders that
the loop body overrides. -/
def attendedRowCore (names : List (String × String))
    (repo_url assignment entry_type : String)
    (target_files : List String) (launched_str : String)
    (g : String × List String) : Row :=
  { repo := sanitize_repo_name repo_url
    name := (names.lookup g.1).getD ""
    assignment := assignment
    date := none
    files := if g.2.isEmpty then "N/A" else String.intercalate ", " g.2
    targetFiles := String.intercalate ", " target_files
    status := determine_status g.2 target_files
    score := scoreOf (determine_status g.2 target_files)
    time := "N/A"
    launched := launched_str
    type := entry_type }

/-- The body of the attended-author loop (lines 282–318).  The state
`acc.1` is the `(time_str, date_str)` pair, which the Python code
initializes *once per entry* (lines 267–268) and never resets between
authors: when every commit-time query for the author fails, the previous
author's (already clamped) strings are reused.  The clamped pair is both
stored in the emitted row and carried to the next iteration (line 303).
Each emitted row is tagged with the author handle (`pr_author`, the loop
variable) for bookkeeping; the handle is not part of the row itself. -/
def attendedStep (names : List (String × String))
    (repo_url assignment entry_type : String)
    (target_files : List String) (launched_str : String)
    (pr_list : List PR) (commitTime : Nat → Option DT)
    (acc : (String × String) × List (String × Row))
    (g : String × List String) :
    (String × String) × List (String × Row) :=
  let latest := latestCommit pr_list commitTime g.1
  let time_str := match latest with | some t => fmtTime t | none => acc.1.1
  let date_str := match latest with | some t => fmtDate t | none => acc.1.2
  let td := enforce_constraints time_str date_str launched_str
  (td, acc.2 ++ [(g.1,
    { attendedRowCore names repo_url assignment entry_type target_files
        launched_str g with
      time := td.1
      date := some td.2 })])

/-- The synthesized row for a roster member with no submissions
(lines 324–336): status `'Not Done'`, score `0`, `Date` absent (`None`),
`Files` and `Time` `'N/A'`. -/
def absentRow (repo_url assignment entry_type : String)
    (target_files : List String) (launched_str : String)
    (real_name : String) : Row :=
  { repo := sanitize_repo_name repo_url
    name := real_name
    assignment := assignment
    date := none
    files := "N/A"
    targetFiles := String.intercalate ", " target_files
    status := "Not Done"
    score := 0
    time := "N/A"
    launched := launched_str
    type := entry_type }

/-- The row production for one (non-skipped) assignment entry
(lines 248–336), with each row tagged by the roster handle it was
produced for: first one row per entry of the `author_pr_files` dict (the
attended authors, threading the time/date state), then one row per roster
member absent from that dict. -/
def processEntry (names : List (String × String)) (e : Entry)
    (pr_list : List PR) (commitTime : Nat → Option DT)
    (walkFiles : List String) : List (String × Row) :=
  let authorized := names.map Prod.fst
  let target_files := computeTargetFiles e.targetFile walkFiles
  let launched_str := match e.date with | some t => fmtDate t | none => "N/A"
  let groups := author_pr_files authorized pr_list
  let attended :=
    (groups.foldl
      (attendedStep names e.repoUrl e.assignment e.type target_files
        launched_str pr_list commitTime)
      (("N/A", "N/A"), [])).2
  let absent :=
    (names.filter (fun p => !((groups.map Prod.fst).contains p.1))).map
      (fun p => (p.1,
        absentRow e.repoUrl e.assignment e.type target_files launched_str p.2))
  attended ++ absent

/-- The untagged row list for one entry (what is appended to
`output_data`). -/
def processEntryRows (names : List (String × String)) (e : Entry)
    (pr_list : List PR) (commitTime : Nat → Option DT)
    (walkFiles : List String) : List Row :=
  (processEntry names e pr_list commitTime walkFiles).map Prod.snd

/-- The row collection built by `prepare_and_send_data` (lines 237–336)
across the assignment feed: entries with an empty `Repo URL` or empty
`Assignment` are skipped (`continue`, lines 244–246), every other entry
contributes its rows.  The external adapters are parameters: `prListOf`
maps a repo URL to its PR list, `commitTimeOf` maps a repo URL and PR id
to the latest commit time (or `none` on failure), and `walkFilesOf` maps a
cloned working-copy directory to the file names `os.walk` finds in it. -/
def prepare_and_send_data (names : List (String × String))
    (entries : List Entry) (prListOf : String → List PR)
    (commitTimeOf : String → Nat → Option DT)
    (walkFilesOf : String → List String) : List Row :=
  (entries.map
    (fun e =>
      if e.repoUrl = "" ∨ e.assignment = "" then []
      else
        processEntryRows names e (prListOf e.repoUrl)
          (commitTimeOf e.repoUrl)
          (walkFilesOf (sanitize_repo_name e.repoUrl)))).flatten

/-! ## Helper lemmas -/

theorem contains_iff_mem {l : List String} {a : String} :
    l.contains a = true ↔ a ∈ l := by simp

theorem determine_status_all_eq (pr tgt : List String) :
    determine_status pr tgt =
      if (tgt.map lower).all
          (fun t => (pr.map lower).contains t) then "Done"
      else "Not Done" := by
  unfold determine_status
  rcases h : (tgt.map lower).all
      (fun t => (pr.map lower).contains t) <;> simp [h]

theorem determine_status_done_iff (pr tgt : List String) :
    determine_status pr tgt = "Done" ↔
      (tgt.map lower).toFinset ⊆ (pr.map lower).toFinset := by
  rw [determine_status_all_eq]
  by_cases h : (tgt.map lower).all
      (fun t => (pr.map lower).contains t) = true
  · rw [if_pos h]
    rw [List.all_eq_true] at h
    constructor
    · intro _ x hx
      exact List.mem_toFinset.mpr
        (contains_iff_mem.mp (h x (List.mem_toFinset.mp hx)))
    · intro _
      rfl
  · rw [if_neg h]
    constructor
    · intro hc
      exact absurd hc (by decide)
    · intro hsub
      exact absurd
        (List.all_eq_true.mpr fun x hx =>
          contains_iff_mem.mpr
            (List.mem_toFinset.mp (hsub (List.mem_toFinset.mpr hx)))) h

theorem determine_status_cases (pr tgt : List String) :
    determine_status pr tgt = "Done" ∨ determine_status pr tgt = "Not Done" := by
  rw [determine_status_all_eq]
  by_cases h : ((tgt.map lower).all
      (fun t => (pr.map lower).contains t)) = true
  · exact Or.inl (if_pos h)
  · exact Or.inr (if_neg h)

/-- **C2.** `determine_status` returns `'Done'` iff the lowercased target
set is a subset of the lowercased changed-file set and `'Not Done'`
otherwise, and the emitted score is `1` iff the status is `'Done'` and `0`
iff it is `'Not Done'`. -/
theorem determine_status_subset_iff_and_score (pr tgt : List String) :
    (determine_status pr tgt = "Done" ↔
      (tgt.map lower).toFinset ⊆ (pr.map lower).toFinset) ∧
    (determine_status pr tgt = "Not Done" ↔
      ¬ (tgt.map lower).toFinset ⊆ (pr.map lower).toFinset) ∧
    (scoreOf (determine_status pr tgt) = 1 ↔ determine_status pr tgt = "Done") ∧
    (scoreOf (determine_status pr tgt) = 0 ↔
      determine_status pr tgt = "Not Done") := by
  have hd := determine_status_done_iff pr tgt
  rcases determine_status_cases pr tgt with h | h
  · have hsub := hd.mp h
    rw [h] at hd ⊢
    exact ⟨hd, by simp [hsub], by simp [scoreOf], by simp [scoreOf]⟩
  · have hnsub : ¬ (tgt.map lower).toFinset ⊆
        (pr.map lower).toFinset := by
      intro hsub
      have := hd.mpr hsub
      rw [h] at this
      exact absurd this (by decide)
    rw [h] at hd ⊢
    exact ⟨hd, by simp [hnsub], by simp [scoreOf], by simp [scoreOf]⟩

/-- **C7.** `determine_status` is unchanged under any permutation of
either file list and under any change of letter case of the file names in
either list: whenever the lowercased images of the two changed-file lists
are permutations of each other, and likewise for the two target lists
(which covers reordering and re-casing), the status is the same. -/
theorem determine_status_perm_case_invariant
    (pr pr' tgt tgt' : List String)
    (hp : (pr.map lower).Perm (pr'.map lower))
    (ht : (tgt.map lower).Perm (tgt'.map lower)) :
    determine_status pr tgt = determine_status pr' tgt' := by
  rw [determine_status_all_eq, determine_status_all_eq]
  have hall : ((tgt.map lower).all
        (fun t => (pr.map lower).contains t)) = true ↔
      ((tgt'.map lower).all
        (fun t => (pr'.map lower).contains t)) = true := by
    rw [List.all_eq_true, List.all_eq_true]
    constructor
    · intro h x hx
      exact contains_iff_mem.mpr
        (hp.mem_iff.mp (contains_iff_mem.mp (h x (ht.mem_iff.mpr hx))))
    · intro h x hx
      exact contains_iff_mem.mpr
        (hp.mem_iff.mpr (contains_iff_mem.mp (h x (ht.mem_iff.mp hx))))
  by_cases h : ((tgt.map lower).all
      (fun t => (pr.map lower).contains t)) = true
  · rw [if_pos h, if_pos (hall.mp h)]
  · rw [if_neg h, if_neg (fun hc => h (hall.mpr hc))]

/-- Witness for `determine_status_perm_case_invariant` at a concrete
reordered and re-cased pair of lists. -/
theorem determine_status_perm_case_invariant_witness :
    determine_status ["A.java", "b.js"] ["a.java"] =
      determine_status ["B.JS", "a.JAVA"] ["A.JAVA"] :=
  determine_status_perm_case_invariant ["A.java", "b.js"] ["B.JS", "a.JAVA"]
    ["a.java"] ["A.JAVA"] (by decide) (by decide)

theorem lookup_replace {α : Type} (d : List (String × α)) (k k' : String) (v : α) :
    (d.map (fun p => if p.1 = k then (p.1, v) else p)).lookup k' =
      if k' = k then (if (d.map Prod.fst).contains k then some v else none)
      else d.lookup k' := by
  induction d with
  | nil => by_cases hk' : k' = k <;> simp [hk', List.lookup]
  | cons p d ih =>
    obtain ⟨a, b⟩ := p
    by_cases hak : a = k <;> by_cases hk' : k' = a
    · simp_all [List.lookup_cons, List.contains_cons]
    · subst hak
      have hb : (k' == a) = false := beq_eq_false_iff_ne.mpr hk'
      simp only [List.map_cons, eq_self_iff_true, if_true, List.lookup_cons, hb,
        if_neg hk']
      rw [ih]
      simp [if_neg hk']
    · subst hk'
      simp only [List.map_cons, if_neg hak, List.lookup_cons, beq_self_eq_true,
        if_neg hak]
    · have hb : (k' == a) = false := beq_eq_false_iff_ne.mpr hk'
      have hka : (k == a) = false := beq_eq_false_iff_ne.mpr (fun h => hak h.symm)
      simp only [List.map_cons, if_neg hak, List.lookup_cons, hb,
        List.contains_cons, hka]
      rw [ih]
      rw [Bool.false_or]

theorem lookup_eq_none_of_not_mem_keys {α : Type} {d : List (String × α)}
    {k : String} (h : k ∉ d.map Prod.fst) : d.lookup k = none := by
  rw [List.lookup_eq_none_iff]
  intro p hp
  simp only [bne_iff_ne, ne_eq]
  intro he
  exact h (he ▸ List.mem_map_of_mem Prod.fst hp)

theorem lookup_isSome_iff_mem_keys {α : Type} (d : List (String × α))
    (k : String) : (d.lookup k).isSome = true ↔ k ∈ d.map Prod.fst := by
  induction d with
  | nil => simp [List.lookup]
  | cons p d ih =>
    obtain ⟨a, b⟩ := p
    by_cases h : k = a
    · subst h
      simp [List.lookup_cons]
    · simp [List.lookup_cons, beq_eq_false_iff_ne.mpr h, ih, h]

theorem lookup_dictSet {α : Type} (d : List (String × α)) (k k' : String)
    (v : α) :
    (dictSet d k v).lookup k' = if k' = k then some v else d.lookup k' := by
  unfold dictSet
  by_cases hc : (d.map Prod.fst).contains k = true
  · rw [if_pos hc, lookup_replace]
    by_cases hk' : k' = k
    · rw [if_pos hk', if_pos hk', if_pos hc]
    · rw [if_neg hk', if_neg hk']
  · rw [if_neg hc, List.lookup_append]
    by_cases hk' : k' = k
    · subst hk'
      rw [lookup_eq_none_of_not_mem_keys (fun hm => hc (contains_iff_mem.mpr hm)),
        if_pos rfl]
      simp [List.lookup_cons]
    · rw [if_neg hk']
      have : List.lookup k' [(k, v)] = none := by
        simp [List.lookup_cons, beq_eq_false_iff_ne.mpr hk', List.lookup]
      rw [this, Option.or_none]

theorem keys_dictSet {α : Type} (d : List (String × α)) (k : String) (v : α) :
    (dictSet d k v).map Prod.fst =
      if (d.map Prod.fst).contains k then d.map Prod.fst
      else d.map Prod.fst ++ [k] := by
  unfold dictSet
  by_cases hc : (d.map Prod.fst).contains k = true
  · rw [if_pos hc, if_pos hc, List.map_map]
    apply List.map_congr_left
    intro p hp
    by_cases h : p.1 = k <;> simp [h]
  · rw [if_neg hc, if_neg hc, List.map_append]
    rfl

theorem nodup_keys_dictSet {α : Type} {d : List (String × α)} (k : String)
    (v : α) (h : (d.map Prod.fst).Nodup) :
    ((dictSet d k v).map Prod.fst).Nodup := by
  rw [keys_dictSet]
  by_cases hc : (d.map Prod.fst).contains k = true
  · rwa [if_pos hc]
  · rw [if_neg hc, List.nodup_append]
    refine ⟨h, List.nodup_singleton k, ?_⟩
    intro x hx hxk
    rw [List.mem_singleton] at hxk
    subst hxk
    exact hc (contains_iff_mem.mpr hx)

theorem load_names_foldl_lookup (lines : List String) :
    ∀ (acc : List (String × String)) (k : String),
      (lines.foldl
        (fun names_dict line =>
          match parseLine line with
          | some p => dictSet names_dict p.1 p.2
          | none => names_dict) acc).lookup k =
      (((lines.filterMap parseLine).reverse).lookup k).or (acc.lookup k) := by
  induction lines with
  | nil =>
    intro acc k
    simp
  | cons l ls ih =>
    intro acc k
    rw [List.foldl_cons, List.filterMap_cons]
    rcases hp : parseLine l with _ | p
    · simp only [hp]
      rw [ih]
    · obtain ⟨k0, v0⟩ := p
      simp only [hp]
      rw [ih, List.reverse_cons, List.lookup_append, Option.or_assoc]
      congr 1
      rw [lookup_dictSet]
      by_cases hk : k = k0
      · subst hk
        simp [List.lookup_cons]
      · simp [List.lookup_cons, beq_eq_false_iff_ne.mpr hk, hk, List.lookup]

theorem load_names_foldl_nodup (lines : List String) :
    ∀ (acc : List (String × String)),
      (acc.map Prod.fst).Nodup →
      ((lines.foldl
        (fun names_dict line =>
          match parseLine line with
          | some p => dictSet names_dict p.1 p.2
          | none => names_dict) acc).map Prod.fst).Nodup := by
  induction lines with
  | nil =>
    intro acc h
    exact h
  | cons l ls ih =>
    intro acc h
    rw [List.foldl_cons]
    rcases hp : parseLine l with _ | p <;> simp only [hp]
    · exact ih acc h
    · exact ih _ (nodup_keys_dictSet p.1 p.2 h)

/-- **C9.** Loading the roster keeps exactly the lines that split into
exactly two comma-separated fields (the kept lines are those `parseLine`
accepts; all others contribute nothing), stores each kept handle stripped
and lowercased mapped to the stripped display name (the content of
`parseLine`), resolves duplicate handles last-occurrence-wins (the loaded
mapping agrees with first-match lookup in the reversed list of parsed
pairs), and produces a dictionary whose handles are unique. -/
theorem load_names_spec (lines : List String) :
    ((load_names_from_file lines).map Prod.fst).Nodup ∧
    (∀ k, k ∈ (load_names_from_file lines).map Prod.fst ↔
          k ∈ (lines.filterMap parseLine).map Prod.fst) ∧
    (∀ k, (load_names_from_file lines).lookup k =
          ((lines.filterMap parseLine).reverse).lookup k) := by
  have hlk : ∀ k, (load_names_from_file lines).lookup k =
      ((lines.filterMap parseLine).reverse).lookup k := by
    intro k
    unfold load_names_from_file
    rw [load_names_foldl_lookup]
    simp [List.lookup]
  refine ⟨?_, ?_, hlk⟩
  · unfold load_names_from_file
    exact load_names_foldl_nodup lines [] (by simp)
  · intro k
    rw [← lookup_isSome_iff_mem_keys, hlk, lookup_isSome_iff_mem_keys,
      List.map_reverse]
    exact List.mem_reverse

/-- **C10.** An assignment-feed entry whose `Repo URL` or `Assignment`
field is empty contributes no report rows at all — the pipeline output
over a feed containing such an entry equals the output over the feed with
that entry removed, so processing continues with the remaining entries. -/
theorem skip_entry_no_rows (names : List (String × String))
    (es₁ es₂ : List Entry) (e : Entry) (prListOf : String → List PR)
    (commitTimeOf : String → Nat → Option DT)
    (walkFilesOf : String → List String)
    (he : e.repoUrl = "" ∨ e.assignment = "") :
    prepare_and_send_data names (es₁ ++ e :: es₂) prListOf commitTimeOf
        walkFilesOf =
      prepare_and_send_data names (es₁ ++ es₂) prListOf commitTimeOf
        walkFilesOf := by
  unfold prepare_and_send_data
  rw [List.map_append, List.map_append, List.map_cons, List.flatten_append,
    List.flatten_append, List.flatten_cons, if_pos he, List.nil_append]

/-- Witness for `skip_entry_no_rows`: an entry with an empty repo URL in a
one-entry feed produces the empty output. -/
theorem skip_entry_no_rows_witness :
    prepare_and_send_data [("alice", "Alice")]
        ([] ++ ({ repoUrl := "", assignment := "HW", type := "T",
                  targetFile := "x", date := none } : Entry) :: [])
        (fun _ => []) (fun _ _ => none) (fun _ => []) =
      prepare_and_send_data [("alice", "Alice")] ([] ++ [])
        (fun _ => []) (fun _ _ => none) (fun _ => []) :=
  skip_entry_no_rows [("alice", "Alice")] [] []
    { repoUrl := "", assignment := "HW", type := "T",
      targetFile := "x", date := none }
    (fun _ => []) (fun _ _ => none) (fun _ => []) (Or.inl rfl)

/-- **C3 (code bug).** The wildcard branch (lines 253–255) is commented
"Fetch all files if Target File is N/A, NA, or empty", and the spec says
the same, but Python's `''.split(',')` is `['']`, whose first element
strips to `''` — not `'n/a'` or `'na'` — so an *empty* Target File field
takes the explicit-list branch and yields the empty target set instead of
the wildcard set: with a qualifying `Main.java` in the working copy the
computed target set is `[]` while the wildcard set is `["Main.java"]`.
The `"N/A"`/`"NA"` spellings (any case, surrounding whitespace) do
trigger the wildcard. -/
theorem target_file_empty_not_wildcard :
    computeTargetFiles "" ["Main.java"] = [] ∧
    ["Main.java"].filter qualifies = ["Main.java"] ∧
    computeTargetFiles "N/A" ["Main.java"] = ["Main.java"] ∧
    computeTargetFiles " na " ["Main.java"] = ["Main.java"] := by
  decide

def staleNames : List (String × String) := [("a", "Anna"), ("b", "Ben")]

def staleEntry : Entry :=
  { repoUrl := "http://host/repo", assignment := "HW1", type := "Code",
    targetFile := "x.java", date := some ⟨2024, 1, 1, 0, 0, 0⟩ }

def stalePRs : List PR :=
  [{ id := 1, author := "a", files := ["x.java"] },
   { id := 2, author := "b", files := ["y.java"] }]

/-- Commit-time oracle for the stale-time scenario: PR 1's query succeeds,
every other query fails. -/
def staleCT : Nat → Option DT := fun i =>
  if i = 1 then some ⟨2024, 1, 5, 10, 0, 0⟩ else none

/-- **C4 (code bug).** Author `"b"`'s commit-time queries all fail
(`latestCommit` is `none`), yet the row emitted for `"b"` does not report
unspecified (`'N/A'`) time and date: it carries author `"a"`'s clamped
time `"10:00:00"` and date `"2024-01-01"`, because `time_str`/`date_str`
are initialized once per assignment entry (lines 267–268) and never reset
between authors. -/
theorem stale_time_leak :
    latestCommit stalePRs staleCT "b" = none ∧
    ∃ p ∈ processEntry staleNames staleEntry stalePRs staleCT [],
      p.1 = "b" ∧ p.2.time = "10:00:00" ∧ p.2.date = some "2024-01-01" ∧
      p.2.time ≠ "N/A" := by
  decide

theorem digit_toNat {n : Nat} (h : n ≤ 9) : (digit n).toNat = 48 + n := by
  interval_cases n <;> decide

theorem isDigit_digit {n : Nat} (h : n ≤ 9) : (digit n).isDigit = true := by
  interval_cases n <;> decide

theorem dval_digit {n : Nat} (h : n ≤ 9) : dval (digit n) = n := by
  interval_cases n <;> decide

theorem fmtT_ne_na (h m s : Nat) : fmtT h m s ≠ "N/A" := by
  intro he
  have hl := congrArg (fun t : String => t.data.length) he
  simp [fmtT] at hl

theorem fmtD_ne_na (y m d : Nat) : fmtD y m d ≠ "N/A" := by
  intro he
  have hl := congrArg (fun t : String => t.data.length) he
  simp [fmtD] at hl


theorem pyLt_cons (a b : Char) (as bs : List Char) :
    pyLt (a :: as) (b :: bs) =
      if a.toNat < b.toNat then true
      else if b.toNat < a.toNat then false
      else pyLt as bs := rfl

theorem pyLt_digits_step {x y : Nat} (r1 r2 : List Char) (hx : x ≤ 9)
    (hy : y ≤ 9) :
    pyLt (digit x :: r1) (digit y :: r2) =
      if x < y then true else if y < x then false else pyLt r1 r2 := by
  rw [pyLt_cons, digit_toNat hx, digit_toNat hy]
  by_cases c1 : x < y
  · rw [if_pos (by omega), if_pos c1]
  · rw [if_neg (by omega), if_neg c1]
    by_cases c2 : y < x
    · rw [if_pos (by omega), if_pos c2]
    · rw [if_neg (by omega), if_neg c2]

theorem pyLt_colon_step (r1 r2 : List Char) :
    pyLt (':' :: r1) (':' :: r2) = pyLt r1 r2 := by
  rw [pyLt_cons, if_neg (Nat.lt_irrefl _), if_neg (Nat.lt_irrefl _)]

/-- The lexicographic comparison of a zero-padded time against the
`"21:00:00"` cutoff, digit by digit: `a b` are the hour digits, `c d` the
minute digits (`c ≤ 5` since minutes are below 60), `e f` the second
digits. -/
theorem pyLt_cutoff_digits (a b c d e f : Nat) (ha : a ≤ 9) (hb : b ≤ 9)
    (hc : c ≤ 5) (hd : d ≤ 9) (he : e ≤ 5) (hf : f ≤ 9) :
    (pyLt [digit 2, digit 1, ':', digit 0, digit 0, ':', digit 0, digit 0]
      [digit a, digit b, ':', digit c, digit d, ':', digit e, digit f]
      = true) ↔
    75600 < (a * 10 + b) * 3600 + (c * 10 + d) * 60 + (e * 10 + f) := by
  rw [pyLt_digits_step _ _ (by omega) (by omega : a ≤ 9),
    pyLt_digits_step _ _ (by omega) hb, pyLt_colon_step,
    pyLt_digits_step _ _ (by omega) (by omega : c ≤ 9),
    pyLt_digits_step _ _ (by omega) hd, pyLt_colon_step,
    pyLt_digits_step _ _ (by omega) (by omega : e ≤ 9),
    pyLt_digits_step _ _ (by omega) hf]
  have hleaf : pyLt [] [] = false := rfl
  by_cases q1 : 2 < a
  · rw [if_pos q1]
    exact iff_of_true rfl (by omega)
  · rw [if_neg q1]
    by_cases q2 : a < 2
    · rw [if_pos q2]
      exact iff_of_false Bool.false_ne_true (by omega)
    · rw [if_neg q2]
      by_cases q3 : 1 < b
      · rw [if_pos q3]
        exact iff_of_true rfl (by omega)
      · rw [if_neg q3]
        by_cases q4 : b < 1
        · rw [if_pos q4]
          exact iff_of_false Bool.false_ne_true (by omega)
        · rw [if_neg q4]
          by_cases q5 : 0 < c
          · rw [if_pos q5]
            exact iff_of_true rfl (by omega)
          · rw [if_neg q5, if_neg (by omega : ¬ c < 0)]
            by_cases q6 : 0 < d
            · rw [if_pos q6]
              exact iff_of_true rfl (by omega)
            · rw [if_neg q6, if_neg (by omega : ¬ d < 0)]
              by_cases q7 : 0 < e
              · rw [if_pos q7]
                exact iff_of_true rfl (by omega)
              · rw [if_neg q7, if_neg (by omega : ¬ e < 0)]
                by_cases q8 : 0 < f
                · rw [if_pos q8]
                  exact iff_of_true rfl (by omega)
                · rw [if_neg q8, if_neg (by omega : ¬ f < 0), hleaf]
                  exact iff_of_false Bool.false_ne_true (by omega)

/-- Python's `time_str > "21:00:00"` on a zero-padded `HH:MM:SS` string is
exactly "the time-of-day exceeds 21:00:00 (= 75600 seconds)". -/
theorem pyStrLt_cutoff_iff (h m s : Nat) (hh : h ≤ 99) (hm : m ≤ 59)
    (hs : s ≤ 59) :
    (pyStrLt "21:00:00" (fmtT h m s) = true) ↔
      75600 < 3600 * h + 60 * m + s := by
  have he : pyStrLt "21:00:00" (fmtT h m s) =
      pyLt [digit 2, digit 1, ':', digit 0, digit 0, ':', digit 0, digit 0]
        [digit (h / 10), digit (h % 10), ':',
         digit (m / 10), digit (m % 10), ':',
         digit (s / 10), digit (s % 10)] := rfl
  rw [he, pyLt_cutoff_digits (h / 10) (h % 10) (m / 10) (m % 10) (s / 10)
    (s % 10) (by omega) (by omega) (by omega) (by omega) (by omega) (by omega)]
  omega

theorem enforce_constraints_fst (t d l : String) :
    (enforce_constraints t d l).1 =
      if t ≠ "N/A" then
        (if pyStrLt "21:00:00" t then "21:00:00" else t)
      else t := rfl

theorem enforce_constraints_snd (t d l : String) :
    (enforce_constraints t d l).2 =
      if d ≠ "N/A" then
        match (if l ≠ "N/A" then parseDate l else none) with
        | some md =>
          match parseDate d with
          | some dk => if md < dk then l else d
          | none => d
        | none => d
      else d := rfl

/-- **C5.** For every candidate time string that is a well-formed
zero-padded time of day (the `strftime("%H:%M:%S")` rendering of
`h:m:s`, the only non-`'N/A'` time strings the program produces) and
arbitrary date and launch-date strings, the constraint enforcer returns
exactly `"21:00:00"` when the candidate time-of-day exceeds the 21:00:00
cutoff (75600 seconds past midnight) and returns the candidate unchanged
otherwise — in particular `"22:15:00"` becomes `"21:00:00"` and
`"18:00:00"` is unchanged (see the witness). -/
theorem enforce_time_clamp (h m s : Nat) (d l : String)
    (hh : h < 24) (hm : m < 60) (hs : s < 60) :
    (enforce_constraints (fmtT h m s) d l).1 =
      if 75600 < 3600 * h + 60 * m + s then "21:00:00" else fmtT h m s := by
  have hiff := pyStrLt_cutoff_iff h m s (by omega) (by omega) (by omega)
  rw [enforce_constraints_fst, if_pos (fmtT_ne_na h m s)]
  by_cases hcut : 75600 < 3600 * h + 60 * m + s
  · rw [if_pos (hiff.mpr hcut), if_pos hcut]
  · rw [if_neg (fun ht => hcut (hiff.mp ht)), if_neg hcut]

/-- Witness for `enforce_time_clamp` at the two times named by the claim
(`fmtT 22 15 0` is the string `"22:15:00"`, `fmtT 18 0 0` is
`"18:00:00"`). -/
theorem enforce_time_clamp_witness :
    (enforce_constraints (fmtT 22 15 0) "N/A" "N/A").1 = "21:00:00" ∧
    (enforce_constraints (fmtT 18 0 0) "N/A" "N/A").1 = fmtT 18 0 0 ∧
    fmtT 22 15 0 = "22:15:00" ∧ fmtT 18 0 0 = "18:00:00" := by
  refine ⟨?_, ?_, rfl, rfl⟩
  · rw [enforce_time_clamp 22 15 0 "N/A" "N/A" (by omega) (by omega)
      (by omega), if_pos (by omega)]
  · rw [enforce_time_clamp 18 0 0 "N/A" "N/A" (by omega) (by omega)
      (by omega), if_neg (by omega)]

theorem parseDateChars_digits (a b c dg e f g h : Nat) (h1 : a ≤ 9)
    (h2 : b ≤ 9) (h3 : c ≤ 9) (h4 : dg ≤ 9) (h5 : e ≤ 9) (h6 : f ≤ 9)
    (h7 : g ≤ 9) (h8 : h ≤ 9) :
    parseDateChars [digit a, digit b, digit c, digit dg, '-', digit e,
      digit f, '-', digit g, digit h] =
      some ((((a * 10 + b) * 10 + c) * 10 + dg) * 10000 +
            (e * 10 + f) * 100 + (g * 10 + h)) := by
  show (if (digit a).isDigit && (digit b).isDigit && (digit c).isDigit &&
          (digit dg).isDigit && ('-' == '-') && ('-' == '-') &&
          (digit e).isDigit && (digit f).isDigit &&
          (digit g).isDigit && (digit h).isDigit then
        some ((((dval (digit a) * 10 + dval (digit b)) * 10 + dval (digit c))
            * 10 + dval (digit dg)) * 10000 +
          (dval (digit e) * 10 + dval (digit f)) * 100 +
          (dval (digit g) * 10 + dval (digit h)))
      else none) = _
  rw [if_pos (by
    simp [isDigit_digit h1, isDigit_digit h2, isDigit_digit h3,
      isDigit_digit h4, isDigit_digit h5, isDigit_digit h6,
      isDigit_digit h7, isDigit_digit h8])]
  rw [dval_digit h1, dval_digit h2, dval_digit h3, dval_digit h4,
    dval_digit h5, dval_digit h6, dval_digit h7, dval_digit h8]

theorem parseDate_fmtD (y m d : Nat) (hy : y ≤ 9999) (hm : m ≤ 99)
    (hd : d ≤ 99) :
    parseDate (fmtD y m d) = some (y * 10000 + m * 100 + d) := by
  have he : parseDate (fmtD y m d) =
      parseDateChars [digit (y / 1000), digit (y / 100 % 10),
        digit (y / 10 % 10), digit (y % 10), '-',
        digit (m / 10), digit (m % 10), '-',
        digit (d / 10), digit (d % 10)] := rfl
  exact he.trans ((parseDateChars_digits (y / 1000) (y / 100 % 10)
    (y / 10 % 10) (y % 10) (m / 10) (m % 10) (d / 10) (d % 10) (by omega)
    (by omega) (by omega) (by omega) (by omega) (by omega) (by omega)
    (by omega)).trans (congrArg some (by omega :
      (((y / 1000 * 10 + y / 100 % 10) * 10 + y / 10 % 10) * 10 + y % 10) *
          10000 + (m / 10 * 10 + m % 10) * 100 + (d / 10 * 10 + d % 10) =
        y * 10000 + m * 100 + d)))

theorem enforce_snd_parsed (t d l : String) (dk lk : Nat)
    (hpd : parseDate d = some dk) (hpl : parseDate l = some lk)
    (hdn : d ≠ "N/A") (hln : l ≠ "N/A") :
    (enforce_constraints t d l).2 = if lk < dk then l else d := by
  rw [enforce_constraints_snd, if_pos hdn, if_pos hln, hpl, hpd]

/-- **C6.** The constraint enforcer replaces the candidate date with the
launch date exactly when a launch date is known and the candidate date is
strictly after it (both dates being the `strftime("%Y-%m-%d")` renderings
the program produces, compared as `datetime`s, i.e. by their
`y*10000 + m*100 + d` key); if the candidate date is `'N/A'` or no launch
date is known (`'N/A'`), the date is returned unchanged (the rule is a
no-op). -/
theorem enforce_date_clamp :
    (∀ (t : String) (y1 m1 d1 y2 m2 d2 : Nat), y1 ≤ 9999 → m1 ≤ 99 →
      d1 ≤ 99 → y2 ≤ 9999 → m2 ≤ 99 → d2 ≤ 99 →
      (enforce_constraints t (fmtD y1 m1 d1) (fmtD y2 m2 d2)).2 =
        if y2 * 10000 + m2 * 100 + d2 < y1 * 10000 + m1 * 100 + d1 then
          fmtD y2 m2 d2
        else fmtD y1 m1 d1) ∧
    (∀ t l : String, (enforce_constraints t "N/A" l).2 = "N/A") ∧
    (∀ t d : String, (enforce_constraints t d "N/A").2 = d) := by
  refine ⟨?_, ?_, ?_⟩
  · intro t y1 m1 d1 y2 m2 d2 hy1 hm1 hd1 hy2 hm2 hd2
    rw [enforce_snd_parsed t (fmtD y1 m1 d1) (fmtD y2 m2 d2)
      (y1 * 10000 + m1 * 100 + d1) (y2 * 10000 + m2 * 100 + d2)
      (parseDate_fmtD y1 m1 d1 hy1 hm1 hd1)
      (parseDate_fmtD y2 m2 d2 hy2 hm2 hd2)
      (fmtD_ne_na y1 m1 d1) (fmtD_ne_na y2 m2 d2)]
  · intro t l
    rw [enforce_constraints_snd, if_neg (fun hne => hne rfl)]
  · intro t d
    rw [enforce_constraints_snd]
    by_cases hd : d ≠ "N/A"
    · rw [if_pos hd, if_neg (fun hne => hne rfl)]
    · rw [if_neg hd]

/-- Witness for `enforce_date_clamp` at the dates named by the claim:
launch date `fmtD 2024 1 10 = "2024-01-10"`, candidate `"2024-01-12"`
clamped to the launch date, candidate `"2024-01-09"` unchanged. -/
theorem enforce_date_clamp_witness :
    (enforce_constraints "N/A" (fmtD 2024 1 12) (fmtD 2024 1 10)).2 =
      fmtD 2024 1 10 ∧
    (enforce_constraints "N/A" (fmtD 2024 1 9) (fmtD 2024 1 10)).2 =
      fmtD 2024 1 9 ∧
    fmtD 2024 1 10 = "2024-01-10" ∧ fmtD 2024 1 12 = "2024-01-12" ∧
    fmtD 2024 1 9 = "2024-01-09" := by
  refine ⟨?_, ?_, rfl, rfl, rfl⟩
  · rw [enforce_date_clamp.1 "N/A" 2024 1 12 2024 1 10 (by omega) (by omega)
      (by omega) (by omega) (by omega) (by omega), if_pos (by omega)]
  · rw [enforce_date_clamp.1 "N/A" 2024 1 9 2024 1 10 (by omega) (by omega)
      (by omega) (by omega) (by omega) (by omega), if_neg (by omega)]

/-- **C8.** Applying the constraint enforcer changes only the displayed
`Time` and `Date` fields of a row: for every state of the loop (so whether
or not the clamps fire, and whatever time/date strings are carried in),
the attended-row loop body appends a row that differs from the
state-independent `attendedRowCore` only in `time` and `date`, and the
`Status` and `Score` it emits are exactly the values computed before
clamping (`determine_status` on the merged file set, and its score). -/
theorem clamp_frame (names : List (String × String))
    (repo_url assignment entry_type : String) (target_files : List String)
    (launched_str : String) (pr_list : List PR) (ct : Nat → Option DT)
    (acc : (String × String) × List (String × Row))
    (g : String × List String) :
    ∃ t d,
      attendedStep names repo_url assignment entry_type target_files
          launched_str pr_list ct acc g =
        ((t, d), acc.2 ++ [(g.1,
          { attendedRowCore names repo_url assignment entry_type target_files
              launched_str g with
            time := t, date := some d })]) ∧
      (attendedRowCore names repo_url assignment entry_type target_files
          launched_str g).status = determine_status g.2 target_files ∧
      (attendedRowCore names repo_url assignment entry_type target_files
          launched_str g).score = scoreOf (determine_status g.2 target_files) := by
  refine ⟨(enforce_constraints
      (match latestCommit pr_list ct g.1 with
        | some t => fmtTime t
        | none => acc.1.1)
      (match latestCommit pr_list ct g.1 with
        | some t => fmtDate t
        | none => acc.1.2) launched_str).1,
    (enforce_constraints
      (match latestCommit pr_list ct g.1 with
        | some t => fmtTime t
        | none => acc.1.1)
      (match latestCommit pr_list ct g.1 with
        | some t => fmtDate t
        | none => acc.1.2) launched_str).2, ?_, rfl, rfl⟩
  rfl

theorem keys_addFiles (d : List (String × List String)) (k : String)
    (fs : List String) :
    (addFiles d k fs).map Prod.fst =
      if (d.map Prod.fst).contains k then d.map Prod.fst
      else d.map Prod.fst ++ [k] := by
  unfold addFiles
  by_cases hc : (d.map Prod.fst).contains k = true
  · rw [if_pos hc, if_pos hc, List.map_map]
    apply List.map_congr_left
    intro p hp
    by_cases h : p.1 = k <;> simp [h]
  · rw [if_neg hc, if_neg hc, List.map_append]
    rfl

theorem author_pr_files_fold_keys (authorized : List String) (prs : List PR) :
    ∀ d : List (String × List String),
      (d.map Prod.fst).Nodup → (∀ x ∈ d.map Prod.fst, x ∈ authorized) →
      ((prs.foldl (fun d pr =>
          if authorized.contains (lower pr.author) then
            addFiles d (lower pr.author) pr.files
          else d) d).map Prod.fst).Nodup ∧
      (∀ x ∈ (prs.foldl (fun d pr =>
          if authorized.contains (lower pr.author) then
            addFiles d (lower pr.author) pr.files
          else d) d).map Prod.fst, x ∈ authorized) := by
  induction prs with
  | nil =>
    intro d h1 h2
    exact ⟨h1, h2⟩
  | cons pr prs ih =>
    intro d h1 h2
    rw [List.foldl_cons]
    by_cases hmem : authorized.contains (lower pr.author) = true
    · rw [if_pos hmem]
      apply ih
      · rw [keys_addFiles]
        by_cases hc : (d.map Prod.fst).contains (lower pr.author) = true
        · rwa [if_pos hc]
        · rw [if_neg hc, List.nodup_append]
          refine ⟨h1, List.nodup_singleton _, ?_⟩
          intro x hx hxk
          rw [List.mem_singleton] at hxk
          subst hxk
          exact hc (contains_iff_mem.mpr hx)
      · intro x hx
        rw [keys_addFiles] at hx
        by_cases hc : (d.map Prod.fst).contains (lower pr.author) = true
        · rw [if_pos hc] at hx
          exact h2 x hx
        · rw [if_neg hc] at hx
          rcases List.mem_append.mp hx with h | h
          · exact h2 x h
          · rw [List.mem_singleton] at h
            subst h
            exact contains_iff_mem.mp hmem
    · rw [if_neg hmem]
      exact ih d h1 h2

theorem author_pr_files_keys_nodup (authorized : List String)
    (prs : List PR) :
    ((author_pr_files authorized prs).map Prod.fst).Nodup :=
  (author_pr_files_fold_keys authorized prs [] (by simp) (by simp)).1

theorem author_pr_files_keys_subset (authorized : List String) (prs : List PR) :
    ∀ x ∈ (author_pr_files authorized prs).map Prod.fst, x ∈ authorized :=
  (author_pr_files_fold_keys authorized prs [] (by simp) (by simp)).2

theorem attendedStep_shape (names : List (String × String))
    (repo_url assignment entry_type : String) (target_files : List String)
    (launched_str : String) (pr_list : List PR) (ct : Nat → Option DT)
    (acc : (String × String) × List (String × Row))
    (g : String × List String) :
    ∃ r : Row,
      (attendedStep names repo_url assignment entry_type target_files
        launched_str pr_list ct acc g).2 = acc.2 ++ [(g.1, r)] ∧
      r.status = determine_status g.2 target_files ∧
      r.score = scoreOf (determine_status g.2 target_files) :=
  ⟨_, rfl, rfl, rfl⟩

theorem attended_foldl_tags (names : List (String × String))
    (repo_url assignment entry_type : String) (target_files : List String)
    (launched_str : String) (pr_list : List PR) (ct : Nat → Option DT)
    (groups : List (String × List String)) :
    ∀ acc : (String × String) × List (String × Row),
      ((groups.foldl (attendedStep names repo_url assignment entry_type
          target_files launched_str pr_list ct) acc).2).map Prod.fst =
        acc.2.map Prod.fst ++ groups.map Prod.fst := by
  induction groups with
  | nil =>
    intro acc
    simp
  | cons g gs ih =>
    intro acc
    rw [List.foldl_cons, ih]
    obtain ⟨r, hr, -, -⟩ := attendedStep_shape names repo_url assignment
      entry_type target_files launched_str pr_list ct acc g
    rw [hr, List.map_append]
    simp

theorem attended_foldl_mem (names : List (String × String))
    (repo_url assignment entry_type : String) (target_files : List String)
    (launched_str : String) (pr_list : List PR) (ct : Nat → Option DT)
    (groups : List (String × List String)) :
    ∀ (acc : (String × String) × List (String × Row))
      (p : String × Row),
      p ∈ (groups.foldl (attendedStep names repo_url assignment entry_type
          target_files launched_str pr_list ct) acc).2 →
      p ∈ acc.2 ∨ ∃ g ∈ groups, p.1 = g.1 ∧
        p.2.status = determine_status g.2 target_files ∧
        p.2.score = scoreOf (determine_status g.2 target_files) := by
  induction groups with
  | nil =>
    intro acc p hp
    exact Or.inl hp
  | cons g gs ih =>
    intro acc p hp
    rw [List.foldl_cons] at hp
    rcases ih _ p hp with h | ⟨g', hg', h1, h2, h3⟩
    · obtain ⟨r, hr, hs, hsc⟩ := attendedStep_shape names repo_url assignment
        entry_type target_files launched_str pr_list ct acc g
      rw [hr] at h
      rcases List.mem_append.mp h with h | h
      · exact Or.inl h
      · rw [List.mem_singleton] at h
        subst h
        exact Or.inr ⟨g, List.mem_cons_self g gs, rfl, hs, hsc⟩
    · exact Or.inr ⟨g', List.mem_cons_of_mem g hg', h1, h2, h3⟩

theorem map_fst_map_pair_filter {α β : Type} (l : List (String × α))
    (q : String → Bool) (f : String × α → β) :
    ((l.filter (fun p => q p.1)).map (fun p => (p.1, f p))).map Prod.fst =
      (l.map Prod.fst).filter q := by
  induction l with
  | nil => rfl
  | cons p l ih =>
    by_cases h : q p.1 = true <;> simp [List.filter_cons, h, ih]

theorem processEntry_eq (names : List (String × String)) (e : Entry)
    (prs : List PR) (ct : Nat → Option DT) (walkFiles : List String) :
    processEntry names e prs ct walkFiles =
      ((author_pr_files (names.map Prod.fst) prs).foldl
        (attendedStep names e.repoUrl e.assignment e.type
          (computeTargetFiles e.targetFile walkFiles)
          (match e.date with | some t => fmtDate t | none => "N/A") prs ct)
        (("N/A", "N/A"), [])).2 ++
      (names.filter (fun p =>
        !(((author_pr_files (names.map Prod.fst) prs).map Prod.fst).contains
          p.1))).map (fun p => (p.1,
          absentRow e.repoUrl e.assignment e.type
            (computeTargetFiles e.targetFile walkFiles)
            (match e.date with | some t => fmtDate t | none => "N/A") p.2)) :=
  rfl

theorem count_filter_keys (l : List String) (a : String)
    (q : String → Bool) (hqa : q a = true) :
    List.count a (l.filter q) = List.count a l :=
  List.count_filter hqa

theorem contains_eq_false_iff {l : List String} {a : String} :
    l.contains a = false ↔ a ∉ l := by
  constructor
  · intro h hm
    rw [contains_iff_mem.mpr hm] at h
    exact Bool.noConfusion h
  · intro h
    rcases hb : l.contains a
    · rfl
    · exact absurd (contains_iff_mem.mp hb) h

/-- **C1.** For a processed assignment entry, with the roster handles
unique (the Python dict invariant): the untagged output rows are exactly
the tagged rows' row components; every roster handle tags exactly one row
(so the row collection contains exactly one row per (handle, entry) pair);
a row tagged by a handle with submissions is an attended row whose status
is `determine_status` of that author's merged file set against the target
set, with the matching score; and a row tagged by a handle with no
submissions is the synthesized row with status `'Not Done'`, score `0`,
and absent (`None`) date, for a handle of the roster. -/
theorem one_row_per_roster_handle (names : List (String × String)) (e : Entry)
    (prs : List PR) (ct : Nat → Option DT) (walkFiles : List String)
    (hnd : (names.map Prod.fst).Nodup) :
    processEntryRows names e prs ct walkFiles =
      (processEntry names e prs ct walkFiles).map Prod.snd ∧
    (∀ h, h ∈ names.map Prod.fst →
      ((processEntry names e prs ct walkFiles).map Prod.fst).count h = 1) ∧
    (∀ p ∈ processEntry names e prs ct walkFiles,
      p.1 ∈ (author_pr_files (names.map Prod.fst) prs).map Prod.fst →
      ∃ g ∈ author_pr_files (names.map Prod.fst) prs,
        p.1 = g.1 ∧
        p.2.status =
          determine_status g.2 (computeTargetFiles e.targetFile walkFiles) ∧
        p.2.score = scoreOf p.2.status) ∧
    (∀ p ∈ processEntry names e prs ct walkFiles,
      p.1 ∉ (author_pr_files (names.map Prod.fst) prs).map Prod.fst →
      p.2.status = "Not Done" ∧ p.2.score = 0 ∧ p.2.date = none ∧
        p.1 ∈ names.map Prod.fst) := by
  have hGnodup := author_pr_files_keys_nodup (names.map Prod.fst) prs
  refine ⟨rfl, ?_, ?_, ?_⟩
  · intro h hh
    rw [processEntry_eq, List.map_append, List.count_append,
      attended_foldl_tags,
      map_fst_map_pair_filter names (fun x =>
        !(((author_pr_files (names.map Prod.fst) prs).map Prod.fst).contains
          x))]
    simp only [List.map_nil, List.nil_append]
    by_cases hmem :
        h ∈ (author_pr_files (names.map Prod.fst) prs).map Prod.fst
    · rw [List.count_eq_one_of_mem hGnodup hmem]
      have hno : h ∉ (names.map Prod.fst).filter (fun x =>
          !(((author_pr_files (names.map Prod.fst) prs).map
            Prod.fst).contains x)) := by
        intro hf
        obtain ⟨-, hq⟩ := List.mem_filter.mp hf
        rw [Bool.not_eq_true'] at hq
        exact contains_eq_false_iff.mp hq hmem
      rw [List.count_eq_zero_of_not_mem hno]
    · rw [List.count_eq_zero_of_not_mem hmem]
      have hq : (fun x =>
          !(((author_pr_files (names.map Prod.fst) prs).map
            Prod.fst).contains x)) h = true := by
        rw [Bool.not_eq_true']
        exact contains_eq_false_iff.mpr hmem
      rw [count_filter_keys (names.map Prod.fst) h (fun x =>
          !(((author_pr_files (names.map Prod.fst) prs).map
            Prod.fst).contains x)) hq,
        List.count_eq_one_of_mem hnd hh]
  · intro p hp hpG
    rw [processEntry_eq] at hp
    rcases List.mem_append.mp hp with h | h
    · rcases attended_foldl_mem names e.repoUrl e.assignment e.type
        (computeTargetFiles e.targetFile walkFiles)
        (match e.date with | some t => fmtDate t | none => "N/A") prs ct
        (author_pr_files (names.map Prod.fst) prs) (("N/A", "N/A"), []) p h
        with h0 | ⟨g, hg, h1, h2, h3⟩
      · exact absurd h0 (List.not_mem_nil p)
      · exact ⟨g, hg, h1, h2, by rw [h3, h2]⟩
    · obtain ⟨q, hq, hqe⟩ := List.mem_map.mp h
      obtain ⟨-, hqf⟩ := List.mem_filter.mp hq
      rw [← hqe] at hpG
      rw [Bool.not_eq_true'] at hqf
      exact absurd hpG (contains_eq_false_iff.mp hqf)
  · intro p hp hpG
    rw [processEntry_eq] at hp
    rcases List.mem_append.mp hp with h | h
    · rcases attended_foldl_mem names e.repoUrl e.assignment e.type
        (computeTargetFiles e.targetFile walkFiles)
        (match e.date with | some t => fmtDate t | none => "N/A") prs ct
        (author_pr_files (names.map Prod.fst) prs) (("N/A", "N/A"), []) p h
        with h0 | ⟨g, hg, h1, -, -⟩
      · exact absurd h0 (List.not_mem_nil p)
      · exact absurd (h1 ▸ List.mem_map_of_mem Prod.fst hg) hpG
    · obtain ⟨q, hq, hqe⟩ := List.mem_map.mp h
      obtain ⟨hqn, -⟩ := List.mem_filter.mp hq
      subst hqe
      exact ⟨rfl, rfl, rfl, List.mem_map_of_mem Prod.fst hqn⟩

/-- Witness for `one_row_per_roster_handle` at a concrete roster
(`alice` with one PR, `bob` with none): `bob` tags exactly one row. -/
theorem one_row_per_roster_handle_witness :
    ((processEntry [("alice", "Alice"), ("bob", "Bob")]
        { repoUrl := "http://h/r", assignment := "HW", type := "T",
          targetFile := "Main.java", date := none }
        [{ id := 1, author := "Alice", files := ["Main.java"] }]
        (fun _ => none) []).map Prod.fst).count "bob" = 1 :=
  (one_row_per_roster_handle [("alice", "Alice"), ("bob", "Bob")]
    { repoUrl := "http://h/r", assignment := "HW", type := "T",
      targetFile := "Main.java", date := none }
    [{ id := 1, author := "Alice", files := ["Main.java"] }]
    (fun _ => none) [] (by decide)).2.1 "bob" (by decide)
